import Mathlib

/-!
Verification development for the native playback engine of the supersonic
audio player (Go sources under backend/player/native/).  Each Go function
relevant to the specification is shallowly embedded as an executable Lean
definition over explicit state records; 64-bit integers are modelled as Int
(no arithmetic here approaches the 2^63 boundary), byte buffers are modelled
at sample granularity, and the float32 sample pipeline is modelled over
exact rationals (every concrete value appearing in a theorem below is
exactly representable as a float32, and every float32 product appearing in
a theorem is exactly representable, so the rational model agrees with the
machine arithmetic at those points).
-/

namespace Supersonic

/-- Seek origin: the three valid `whence` values of io.Seeker
(io.SeekStart = 0, io.SeekCurrent = 1, io.SeekEnd = 2).  The Go switch
rejects every other integer; the inductive covers exactly the valid ones. -/
inductive Whence
  | start
  | current
  | fromEnd
deriving DecidableEq, Repr

/-! ## HTTPSeeker (backend/player/native/httpseeker.go)

State of an `HTTPSeeker`: the current read position and the content length
learned from the HEAD probe (-1 when the origin reports an unknown length,
which `NewHTTPSeeker` tolerates).  The underlying HTTP machinery is
abstracted: `openReader pos` closes any existing body and opens a ranged
request at `pos`, and on success sets `currentPos := pos`.  Whether that
reopen succeeds is supplied as the oracle argument `reopenOk`. -/
structure HTTPSeeker where
  currentPos : Int
  contentLength : Int
deriving DecidableEq, Repr

/-- Result of `HTTPSeeker.Seek`: the updated seeker, the returned position,
and `some p` when the call closed the old stream and opened a new ranged
request at position `p` (`none` when no reopen happened). -/
structure HSeekOk where
  seeker : HTTPSeeker
  retPos : Int
  reopenedAt : Option Int
deriving DecidableEq, Repr

/-- Embedding of the first `switch whence` block of `HTTPSeeker.Seek`:
the raw absolute target before any bounds handling. -/
def HTTPSeeker.rawTarget (hs : HTTPSeeker) (offset : Int) (whence : Whence) : Int :=
  match whence with
  | .start => offset
  | .current => hs.currentPos + offset
  | .fromEnd => hs.contentLength + offset

/-- Embedding of `HTTPSeeker.Seek` (httpseeker.go lines 102-131).  Computes
the raw target, fails on a negative target, clamps any target above
`contentLength` down to `contentLength`, reopens the stream at the target
when it differs from the current position (success given by `reopenOk`;
on reopen failure the Go code returns the unchanged `currentPos` together
with the error), and returns the position. -/
def HTTPSeeker.Seek (hs : HTTPSeeker) (offset : Int) (whence : Whence)
    (reopenOk : Bool) : Except String HSeekOk :=
  let newPos := hs.rawTarget offset whence
  if newPos < 0 then
    .error "negative position"
  else
    let newPos := if newPos > hs.contentLength then hs.contentLength else newPos
    if newPos ≠ hs.currentPos then
      if reopenOk then
        .ok ⟨{ hs with currentPos := newPos }, newPos, some newPos⟩
      else
        .error "failed to open stream"
    else
      .ok ⟨hs, hs.currentPos, none⟩

/-! ## StreamSeeker (backend/player/native/streamseeker.go)

State of a `StreamSeeker` as seen by `Seek` under its lock: the read
cursor `pos`, the number of bytes buffered so far (`bufLen`, which equals
the highest buffered offset and is a Nat since `bytes.Buffer.Len` is
non-negative), and the `done` flag set when background buffering finished. -/
structure StreamSeeker where
  pos : Int
  bufLen : Nat
  done : Bool
deriving DecidableEq, Repr

/-- Tail of `StreamSeeker.Seek` after `newPos` has been computed: the
negative-position check, the buffered-range check with its done-dependent
clamp, and the cursor update (streamseeker.go lines 144-158). -/
def StreamSeeker.seekCommon (ss : StreamSeeker) (bufLen newPos : Int) :
    Except String (StreamSeeker × Int) :=
  if newPos < 0 then
    .error "negative position"
  else if newPos > bufLen then
    if ss.done then
      .ok ({ ss with pos := bufLen }, bufLen)
    else
      .error "seek beyond buffered data"
  else
    .ok ({ ss with pos := newPos }, newPos)

/-- Absolute target computed by the `switch whence` arms of
`StreamSeeker.Seek` (the fromEnd arithmetic is the one the Go code
performs once it has checked `done`). -/
def StreamSeeker.rawTarget (ss : StreamSeeker) (offset : Int) : Whence → Int
  | .start => offset
  | .current => ss.pos + offset
  | .fromEnd => (ss.bufLen : Int) + offset

/-- Embedding of `StreamSeeker.Seek` (streamseeker.go lines 122-159).
On failure the Go code returns the unchanged `ss.pos` alongside the
error; the embedding returns only the error since the state is unchanged. -/
def StreamSeeker.Seek (ss : StreamSeeker) (offset : Int) (whence : Whence) :
    Except String (StreamSeeker × Int) :=
  let bufLen : Int := (ss.bufLen : Int)
  match whence with
  | .start => StreamSeeker.seekCommon ss bufLen offset
  | .current => StreamSeeker.seekCommon ss bufLen (ss.pos + offset)
  | .fromEnd =>
    if ss.done = false then
      .error "cannot seek to end while buffering"
    else
      StreamSeeker.seekCommon ss bufLen (bufLen + offset)

/-! ## PCM Normalizer (FFmpegDecoder.convertFloatFrameToInt16)

The float32 clamp-and-scale conversion, modelled over exact rationals.
Buffers are modelled at sample granularity: float index `i` stands for
byte offset `4*i` of the little-endian float32 buffer the Go code reads,
and output sample index `j` stands for byte offset `2*j` of the
little-endian int16 output buffer it writes. -/

/-- Truncation toward zero, the semantics of a Go conversion from a
floating-point value to int16 for in-range values. -/
def ratTrunc (q : ℚ) : ℤ :=
  if 0 ≤ q then ⌊q⌋ else ⌈q⌉

/-- Embedding of the per-sample body shared by both branches of
`convertFloatFrameToInt16` (httpseeker.go lines 424-434 and 465-475):
clamp to [-1, 1] by the two-sided if, scale by 32767, convert to int16. -/
def convertSample (v : ℚ) : ℤ :=
  let w := if v > 1 then 1 else if v < -1 then -1 else v
  ratTrunc (w * 32767)

/-- Clamp written the way the specification words it (min/max form),
for comparison with the embedded code. -/
def clampSpec (v : ℚ) : ℚ :=
  min 1 (max (-1) v)

/-- The numeric conversion as the round-trip sentence of the specification
words it, rounding to nearest instead of truncating; stated for comparison
against the embedded code. -/
def specConvertRound (v : ℚ) : ℤ :=
  round (clampSpec v * 32767)

/-- The numeric conversion with truncation toward zero, following the
clamp-then-scale-then-truncate wording of the specification body text. -/
def specConvertTrunc (v : ℚ) : ℤ :=
  ratTrunc (clampSpec v * 32767)

/-- Embedding of the inner channel loop of the planar branch of
`convertFloatFrameToInt16` (httpseeker.go lines 455-477): for one sample
index `s`, the int16 values written for channels 0..numChannels-1, each
read from planar float index `c * nbSamples + s` (byte offset
`c * nbSamples * 4 + s * 4`). -/
def planarRow (numChannels nbSamples : ℕ) (inp : ℕ → ℚ) (s : ℕ) : List ℤ :=
  (List.range numChannels).map fun c => convertSample (inp (c * nbSamples + s))

/-- Embedding of the planar (FLTP) branch of `convertFloatFrameToInt16`
(httpseeker.go lines 437-479): the outer loop over sample indices appends
one `planarRow` per sample index, so output sample index `s * numChannels
+ c` (byte offset `(s * numChannels + c) * 2`) receives the conversion of
planar float index `c * nbSamples + s`. -/
def convertFltp (numChannels nbSamples : ℕ) (inp : ℕ → ℚ) : List ℤ :=
  ((List.range nbSamples).map (planarRow numChannels nbSamples inp)).flatten

/-! ## FFmpegDecoder.Read (backend/player/native/ffmpeg decoder file)

The demux/decode engine boundary is modelled at frame granularity.  A
compressed packet carries its stream index, the decoded frames (identified
by the byte size of their converted PCM) the codec emits as soon as the
packet is sent, and the frames the codec keeps buffered internally until it
is flushed by SendPacket(nil).  ReceiveFrame yields the next available
frame, reports needs-more-input when none is available before the flush,
and reports end-of-stream when none is available after the flush — the
documented avcodec send/receive contract. -/
structure Packet where
  streamIndex : Int
  immediate : List Nat
  held : List Nat
deriving DecidableEq, Repr

/-- Codec-side state: frames ReceiveFrame will yield now (FIFO), frames
buffered until the flush, and whether SendPacket(nil) has been issued. -/
structure CodecState where
  avail : List Nat
  delayed : List Nat
  flushed : Bool
deriving DecidableEq, Repr

/-- Outcome of the inner read-packets-until-we-get-a-frame loop of
`FFmpegDecoder.Read`: remaining demuxer packets, codec state, the value of
the `d.eof` flag after the loop, and the decoded frame when `gotFrame`
became true. -/
structure InnerOut where
  demux : List Packet
  codec : CodecState
  eof : Bool
  frame : Option Nat
deriving DecidableEq, Repr

/-- Embedding of the inner `for !gotFrame` loop of `FFmpegDecoder.Read`
(lines 304-350 of the decoder source): read a packet (demuxer end-of-file
sets `eof`, sends the flush packet and breaks — without ever receiving the
frames the flush makes available), skip packets of other streams, send
audio packets to the codec, and receive a frame, looping on the
needs-more-input condition. -/
def readUntilFrame (audioIdx : Int) (eof : Bool) (codec : CodecState) :
    List Packet → InnerOut
  | [] =>
    ⟨[], ⟨codec.avail ++ codec.delayed, [], true⟩, true, none⟩
  | pkt :: rest =>
    if pkt.streamIndex ≠ audioIdx then
      if eof then ⟨rest, codec, eof, none⟩
      else readUntilFrame audioIdx eof codec rest
    else
      let afterSend : CodecState :=
        ⟨codec.avail ++ pkt.immediate, codec.delayed ++ pkt.held, codec.flushed⟩
      match afterSend.avail with
      | f :: r => ⟨rest, ⟨r, afterSend.delayed, afterSend.flushed⟩, eof, some f⟩
      | [] =>
        if afterSend.flushed then ⟨rest, afterSend, true, none⟩
        else readUntilFrame audioIdx eof afterSend rest

/-- State of an `FFmpegDecoder` as `Read` sees it: the four nullable
native contexts as presence flags, the end-of-file flag, the unread byte
count of the buffered converted frame (`len(buffer) - bufferPos`), the
packets the demuxer will still yield, and the codec state. -/
structure FFmpegDecoder where
  hasFormatContext : Bool
  hasCodecContext : Bool
  hasPacket : Bool
  hasFrame : Bool
  audioStreamIdx : Int
  eof : Bool
  bufAvail : Nat
  demux : List Packet
  codec : CodecState
deriving DecidableEq, Repr

/-- Total number of decoded frames still reachable from a demux/codec
state; the measure that shrinks each time the outer read loop consumes a
frame. -/
def framesIn (demux : List Packet) (codec : CodecState) : Nat :=
  (demux.map fun p => p.immediate.length + p.held.length).sum
    + codec.avail.length + codec.delayed.length

/-- Frame-count bound for the inner loop (part of the termination argument
of the read loop): the loop never creates frames, and consumes one exactly
when it reports one. -/
def readUntilFrame_frames_le (audioIdx : Int) (eof : Bool)
    (codec : CodecState) (demux : List Packet) :
    framesIn (readUntilFrame audioIdx eof codec demux).demux
        (readUntilFrame audioIdx eof codec demux).codec
      + (if (readUntilFrame audioIdx eof codec demux).frame.isSome then 1 else 0)
      ≤ framesIn demux codec := by
  induction demux generalizing codec with
  | nil => simp [readUntilFrame, framesIn]
  | cons pkt rest ih =>
    by_cases hidx : pkt.streamIndex ≠ audioIdx
    · by_cases heof : eof
      · simp [readUntilFrame, hidx, heof, framesIn]
      · have h := ih codec
        simp only [readUntilFrame, if_pos hidx, if_neg heof] at *
        simp [framesIn] at h ⊢
        omega
    · cases hav : codec.avail ++ pkt.immediate with
      | cons f r =>
        have hlen : (codec.avail ++ pkt.immediate).length = r.length + 1 := by
          rw [hav]; simp
        simp only [readUntilFrame, if_neg hidx, hav]
        simp [framesIn] at hlen ⊢
        omega
      | nil =>
        by_cases hfl : codec.flushed
        · have hlen : codec.avail.length + pkt.immediate.length = 0 := by
            have := congrArg List.length hav; simpa using this
          simp [readUntilFrame, if_neg hidx, hav, hfl, framesIn]
          omega
        · have h := ih ⟨codec.avail ++ pkt.immediate, codec.delayed ++ pkt.held, codec.flushed⟩
          simp only [readUntilFrame, if_neg hidx, hav, if_neg hfl] at *
          simp [framesIn] at h ⊢
          omega

/-- Strict decrease of the frame-count measure when the inner loop yields a
frame; discharges the termination obligation of the read loop. -/
def readUntilFrame_frames_lt (audioIdx : Int) (eof : Bool)
    (codec : CodecState) (demux : List Packet) (f : Nat)
    (h : (readUntilFrame audioIdx eof codec demux).frame = some f) :
    framesIn (readUntilFrame audioIdx eof codec demux).demux
        (readUntilFrame audioIdx eof codec demux).codec
      < framesIn demux codec := by
  have hle := readUntilFrame_frames_le audioIdx eof codec demux
  rw [h] at hle
  simp at hle
  omega

/-- Error results `FFmpegDecoder.Read` can return. -/
inductive ReadErr
  | eofErr
  | notInitializedErr
deriving DecidableEq, Repr

/-- Embedding of the outer `for bytesRead < len(p)` loop of
`FFmpegDecoder.Read` (lines 282-365): drain the buffered converted PCM,
return on a full output buffer, report end-of-file once `eof` is set and
nothing was copied, otherwise run the inner loop and either install the
converted frame as the new buffer or report end-of-file when no frame was
obtained. -/
def FFmpegDecoder.readLoop (d : FFmpegDecoder) (plen bytesRead : Nat) :
    FFmpegDecoder × Nat × Option ReadErr :=
  if bytesRead < plen then
    let copied := min d.bufAvail (plen - bytesRead)
    let d1 := { d with bufAvail := d.bufAvail - copied }
    let br := bytesRead + copied
    if plen ≤ br then (d1, br, none)
    else if d1.eof then
      if br = 0 then (d1, 0, some .eofErr) else (d1, br, none)
    else
      let out := readUntilFrame d1.audioStreamIdx d1.eof d1.codec d1.demux
      let d2 := { d1 with demux := out.demux, codec := out.codec, eof := out.eof }
      match hfr : out.frame with
      | none => if br = 0 then (d2, 0, some .eofErr) else (d2, br, none)
      | some f => FFmpegDecoder.readLoop { d2 with bufAvail := f } plen br
  else (d, bytesRead, none)
termination_by framesIn d.demux d.codec
decreasing_by
  exact readUntilFrame_frames_lt d.audioStreamIdx d.eof d.codec d.demux f hfr

/-- Embedding of `FFmpegDecoder.Read` (lines 273-366): the sanity check on
the four native contexts, then the read loop starting from zero bytes
read. -/
def FFmpegDecoder.Read (d : FFmpegDecoder) (plen : Nat) :
    FFmpegDecoder × Nat × Option ReadErr :=
  if d.hasFormatContext = false ∨ d.hasCodecContext = false
      ∨ d.hasPacket = false ∨ d.hasFrame = false then
    (d, 0, some .notInitializedErr)
  else
    d.readLoop plen 0

/-- Embedding of `FFmpegDecoder.cleanup` (lines 499-517): frees and nils
out frame, packet, codec context and format context. -/
def FFmpegDecoder.cleanup (d : FFmpegDecoder) : FFmpegDecoder :=
  { d with hasFormatContext := false, hasCodecContext := false,
           hasPacket := false, hasFrame := false }

/-! ## Player state machine (backend/player/native/player.go)

The player is modelled with explicit wall-clock instants: transition
functions take the current instant `now : Int` (nanoseconds); `time.Since
t` becomes `now - t`.  Metadata is opaque and modelled as a String (the Go
zero value `MediaItemMetadata\x7b\x7d` becomes the empty string).  The oto
context, oto player and decoder are modelled by presence/playing flags,
and callback invocations are returned as an event list. -/
inductive PState
  | stopped
  | playing
  | paused
deriving DecidableEq, Repr

/-- Callback notifications and call markers emitted by player operations.
`startAttempt url offsetSec` marks a call of `startPlayback`. -/
inductive PEvent
  | onPlaying
  | onPaused
  | onStopped
  | onTrackChange
  | onSeek
  | startAttempt (url : String) (offsetSec : ℚ)
deriving DecidableEq, Repr

/-- State of a `Player` (player.go lines 24-60).  `decoderExists` models
`p.decoder != nil`, `otoPlayerExists` models `p.otoPlayer != nil`,
`otoIsPlaying` models `p.otoPlayer.IsPlaying()`, `decoderPosSec` is the
decode position of the live decoder in seconds. -/
structure Player where
  initialized : Bool
  state : PState
  prePausedState : PState
  stopRequested : Bool
  pauseRequested : Bool
  seekRequested : Bool
  seekTarget : ℚ
  currentURL : String
  nextURL : String
  currentMeta : String
  nextMeta : String
  curPlaylistPos : Int
  lenPlaylist : Int
  otoContextExists : Bool
  otoPlayerExists : Bool
  otoIsPlaying : Bool
  decoderExists : Bool
  decoderPosSec : ℚ
  trackStartTime : Int
  startTime : ℚ
  pausedAt : Int
  pausedDuration : Int
deriving DecidableEq, Repr

/-- Embedding of `Player.setState` (player.go lines 322-335): stores the
new state and fires the matching notification exactly when the state
actually changed. -/
def Player.setState (p : Player) (s : PState) : Player × List PEvent :=
  let old := p.state
  let p' := { p with state := s }
  let evs :=
    if s = .playing ∧ old ≠ .playing then [PEvent.onPlaying]
    else if s = .paused ∧ old ≠ .paused then [PEvent.onPaused]
    else if s = .stopped ∧ old ≠ .stopped then [PEvent.onStopped]
    else []
  (p', evs)

/-- Embedding of `Player.stopPlayback` (player.go lines 430-443): closes
and nils out the oto player and the decoder. -/
def Player.stopPlayback (p : Player) : Player :=
  { p with otoPlayerExists := false, otoIsPlaying := false,
           decoderExists := false }

/-- Embedding of `Player.Pause` (player.go lines 174-198). -/
def Player.Pause (p : Player) (now : Int) :
    Except String (Player × List PEvent) :=
  if p.initialized = false then .error "native player uninitialized"
  else if p.state ≠ .playing then .ok (p, [])
  else
    let p1 := { p with pauseRequested := true }
    let p2 :=
      if p1.otoPlayerExists then
        { p1 with pausedAt := now - p1.trackStartTime - p1.pausedDuration,
                  otoIsPlaying := false }
      else p1
    let p3 := { p2 with prePausedState := p2.state }
    .ok (p3.setState .paused)

/-- Embedding of `Player.Continue` (player.go lines 201-227). -/
def Player.Continue (p : Player) (now : Int) :
    Except String (Player × List PEvent) :=
  if p.initialized = false then .error "native player uninitialized"
  else if p.state ≠ .paused then .ok (p, [])
  else
    let p1 := { p with pauseRequested := false }
    let p2 :=
      if p1.pausedAt > 0 then
        { p1 with pausedDuration :=
                    p1.pausedDuration + (now - p1.trackStartTime - p1.pausedAt),
                  pausedAt := 0 }
      else p1
    let p3 := if p2.otoPlayerExists then { p2 with otoIsPlaying := true } else p2
    .ok (p3.setState p3.prePausedState)

/-- Embedding of `Player.seekTo` (player.go lines 446-463); the decode
engine seek itself is modelled as succeeding. -/
def Player.seekTo (p : Player) (secs : ℚ) (now : Int) :
    Player × Option String :=
  if p.decoderExists = false then (p, some "no decoder available")
  else
    ({ p with decoderPosSec := secs, trackStartTime := now,
              pausedDuration := 0, startTime := secs }, none)

/-- Embedding of `Player.Stop` (player.go lines 152-171), as invoked with
its argument ignored. -/
def Player.Stop (p : Player) : Except String (Player × List PEvent) :=
  if p.initialized = false then .error "native player uninitialized"
  else
    let p1 := { p with stopRequested := true }
    let p2 := p1.stopPlayback
    let p3 := { p2 with lenPlaylist := 0, curPlaylistPos := 0,
                        stopRequested := false }
    .ok (p3.setState .stopped)

/-- Resources the `startPlayback` open sequence can acquire. -/
inductive Res
  | byteSource
  | decoderRes
  | otoContextRes
deriving DecidableEq, Repr

/-- Success/failure oracle for the three fallible stages of the
`startPlayback` open sequence: byte-source open (NewHTTPSeeker or
os.Open), decoder creation (NewDecoder), and oto context creation. -/
structure OpenOracle where
  sourceOk : Bool
  decoderOk : Bool
  contextOk : Bool
deriving DecidableEq, Repr

/-- Result of `startPlayback`: the resulting player, the returned error if
any, the emitted events, and ghost ledgers recording which resources the
call acquired and which it closed before returning (the outer Close calls
on the error paths; `stopPlayback` teardown of the previous track is not
counted among the acquisitions of this call). -/
structure StartResult where
  player : Player
  err : Option String
  events : List PEvent
  acquired : List Res
  released : List Res
deriving DecidableEq, Repr

/-- Embedding of `Player.startPlayback` (player.go lines 338-427).  The
code first tears down any previous decoder/sink pair, then opens the byte
source, the decoder, lazily the oto context, creates the oto player over
the decoder, applies a nonzero start offset through `seekTo` (failure
there is only logged), and starts the sink.  On each failure the resources
opened so far in this call are closed and the error is returned; note that
the Go code has already stored the new decoder in `p.decoder` when oto
context creation fails, so the (closed) decoder reference remains set on
that path. -/
def Player.startPlayback (p : Player) (url : String) (startTime : ℚ)
    (oc : OpenOracle) (now : Int) : StartResult :=
  let p0 := p.stopPlayback
  let evs := [PEvent.startAttempt url startTime]
  if oc.sourceOk = false then
    ⟨p0, some "failed to open stream", evs, [], []⟩
  else if oc.decoderOk = false then
    ⟨p0, some "failed to create decoder", evs,
      [.byteSource], [.byteSource]⟩
  else
    let p1 := { p0 with decoderExists := true, decoderPosSec := 0,
                        trackStartTime := now, pausedDuration := 0,
                        pausedAt := 0 }
    if p1.otoContextExists = false ∧ oc.contextOk = false then
      ⟨p1, some "failed to create oto context", evs,
        [.byteSource, .decoderRes], [.decoderRes, .byteSource]⟩
    else
      let ctxAcq : List Res :=
        if p1.otoContextExists then [] else [.otoContextRes]
      let p2 := { p1 with otoContextExists := true, otoPlayerExists := true }
      let p3 := if startTime > 0 then (p2.seekTo startTime now).1 else p2
      let p4 := { p3 with otoIsPlaying := true }
      ⟨p4, none, evs, [.byteSource, .decoderRes] ++ ctxAcq, []⟩

/-- Outcome of one tick of the monitor loop: the resulting player, whether
the goroutine returned (exited the loop), and the events emitted during
the tick. -/
structure TickResult where
  player : Player
  exited : Bool
  events : List PEvent
deriving DecidableEq, Repr

/-- Embedding of one `<-ticker.C` iteration of `Player.monitorPlayback`
(player.go lines 474-535): snapshot the flags, exit on a stop request,
skip the tick while pause-pending in Playing state, execute a deferred
seek, then check for sink exhaustion and perform the advance-or-stop
logic.  `oc` resolves the fallible stages of a `startPlayback` performed
by this tick. -/
def Player.monitorTick (p : Player) (oc : OpenOracle) (now : Int) :
    TickResult :=
  let stopReq := p.stopRequested
  let pauseReq := p.pauseRequested
  let seekReq := p.seekRequested
  let target := p.seekTarget
  let state := p.state
  if stopReq = true then ⟨p, true, []⟩
  else if pauseReq = true ∧ state = .playing then ⟨p, false, []⟩
  else
    let pA :=
      if seekReq = true then
        let pS := { p with seekRequested := false }
        (pS.seekTo target now).1
      else p
    let isPlaying := pA.otoPlayerExists && pA.otoIsPlaying
    if isPlaying = false ∧ state = .playing ∧ pauseReq = false then
      let pB := { pA with curPlaylistPos := pA.curPlaylistPos + 1 }
      let nurl := pB.nextURL
      let nmeta := pB.nextMeta
      if nurl ≠ "" then
        let pC := { pB with currentURL := nurl, currentMeta := nmeta,
                            nextURL := "", nextMeta := "" }
        let r := pC.startPlayback nurl 0 oc now
        match r.err with
        | some _ =>
          match r.player.Stop with
          | .ok (pD, evs) => ⟨pD, true, r.events ++ evs⟩
          | .error _ => ⟨r.player, true, r.events⟩
        | none => ⟨r.player, false, r.events ++ [PEvent.onTrackChange]⟩
      else
        match pB.Stop with
        | .ok (pD, evs) => ⟨pD, true, evs⟩
        | .error _ => ⟨pB, true, []⟩
    else ⟨pA, false, []⟩

/-- The condition under which the modelled `startPlayback` succeeds:
the byte source and decoder open, and an oto context either already
exists or is created successfully. -/
def Player.openSucceeds (p : Player) (oc : OpenOracle) : Prop :=
  oc.sourceOk = true ∧ oc.decoderOk = true
    ∧ (p.otoContextExists = true ∨ oc.contextOk = true)

instance (p : Player) (oc : OpenOracle) : Decidable (p.openSucceeds oc) := by
  unfold Player.openSucceeds; infer_instance

/-- A decoder state at demuxer end-of-file whose codec still holds one
buffered frame (4096 bytes of PCM once converted) that only a flush can
release; used to evaluate the Read end-of-stream path. -/
def flushDecoder : FFmpegDecoder :=
  { hasFormatContext := true, hasCodecContext := true, hasPacket := true,
    hasFrame := true, audioStreamIdx := 0, eof := false, bufAvail := 0,
    demux := [], codec := ⟨[], [4096], false⟩ }

/-- A concrete initialized player, currently Playing with an exhausted
sink and a queued next track; base state for the closed evaluations. -/
def samplePlayer : Player :=
  { initialized := true, state := .playing, prePausedState := .playing,
    stopRequested := false, pauseRequested := false, seekRequested := false,
    seekTarget := 0, currentURL := "trackA", nextURL := "trackB",
    currentMeta := "A", nextMeta := "B", curPlaylistPos := 0,
    lenPlaylist := 2, otoContextExists := true, otoPlayerExists := true,
    otoIsPlaying := false, decoderExists := true, decoderPosSec := 0,
    trackStartTime := 0, startTime := 0, pausedAt := 0, pausedDuration := 0 }

/-! ## Theorems -/

/-- C5: for every (offset, whence) on the range-request byte source with a
known (non-negative) length, the computed absolute target is clamped to
[0, length], a negative resulting target fails with an error, the stream
is reopened at the target exactly when it differs from the current
position, the call returns the new absolute position, and the position
invariant 0 <= position <= length holds afterward. -/
theorem C5_httpseeker_seek_contract (hs : HTTPSeeker) (offset : Int)
    (w : Whence) (hknown : 0 ≤ hs.contentLength) :
    (hs.rawTarget offset w < 0 →
      hs.Seek offset w true = .error "negative position") ∧
    (0 ≤ hs.rawTarget offset w →
      ∃ out : HSeekOk, hs.Seek offset w true = .ok out
        ∧ out.retPos = min (hs.rawTarget offset w) hs.contentLength
        ∧ out.seeker.currentPos = out.retPos
        ∧ out.seeker.contentLength = hs.contentLength
        ∧ 0 ≤ out.retPos ∧ out.retPos ≤ hs.contentLength
        ∧ (out.retPos ≠ hs.currentPos ↔ out.reopenedAt = some out.retPos)) := by
  constructor
  · intro hneg
    simp only [HTTPSeeker.Seek, if_pos hneg]
  · intro hpos
    simp only [HTTPSeeker.Seek]
    rw [if_neg (by omega)]
    by_cases hclamp : hs.rawTarget offset w > hs.contentLength
    · rw [if_pos hclamp]
      by_cases hne : hs.contentLength ≠ hs.currentPos
      · rw [if_pos hne]
        refine ⟨_, rfl, ?_, rfl, rfl, ?_, ?_, ?_⟩ <;>
          simp [min_eq_right (le_of_lt hclamp)] <;> omega
      · rw [if_neg hne]
        push_neg at hne
        refine ⟨_, rfl, ?_, ?_, rfl, ?_, ?_, ?_⟩ <;>
          simp [min_eq_right (le_of_lt hclamp), hne] <;> omega
    · rw [if_neg hclamp]
      push_neg at hclamp
      by_cases hne : hs.rawTarget offset w ≠ hs.currentPos
      · rw [if_pos hne]
        refine ⟨_, rfl, ?_, rfl, rfl, ?_, ?_, ?_⟩ <;>
          simp [min_eq_left hclamp] <;> omega
      · rw [if_neg hne]
        push_neg at hne
        refine ⟨_, rfl, ?_, ?_, rfl, ?_, ?_, ?_⟩ <;>
          simp [min_eq_left hclamp, hne] <;> omega

/-- C5 witness: a seek past the end of a 100-byte resource from position 0
is clamped to 100 and reopens there. -/
theorem C5_witness :
    ∃ out : HSeekOk, (HTTPSeeker.mk 0 100).Seek 150 .start true = .ok out
      ∧ out.retPos = 100 ∧ out.seeker.currentPos = 100
      ∧ 0 ≤ out.retPos ∧ out.retPos ≤ 100 := by
  obtain ⟨-, h⟩ :=
    C5_httpseeker_seek_contract (HTTPSeeker.mk 0 100) 150 .start (by decide)
  obtain ⟨out, h1, h2, h3, h4, h5, h6, -⟩ := h (by decide)
  refine ⟨out, h1, ?_, ?_, h5, ?_⟩
  · rw [h2]; decide
  · rw [h3, h2]; decide
  · rw [h2]; decide

/-- C9: when the origin reported an unknown content length (stored as -1),
every seek whose computed target is non-negative is clamped down to -1 and
returns position -1 with no error, leaving the current position negative,
so the position invariant fails in the unknown-length case. -/
theorem C9_unknown_length_seek (hs : HTTPSeeker) (offset : Int) (w : Whence)
    (hlen : hs.contentLength = -1) (hraw : 0 ≤ hs.rawTarget offset w) :
    ∃ out : HSeekOk, hs.Seek offset w true = .ok out
      ∧ out.retPos = -1 ∧ out.seeker.currentPos = -1
      ∧ out.seeker.currentPos < 0 := by
  have hclamp : hs.rawTarget offset w > hs.contentLength := by omega
  simp only [HTTPSeeker.Seek]
  rw [if_neg (by omega), if_pos hclamp]
  by_cases hne : hs.contentLength ≠ hs.currentPos
  · rw [if_pos hne]
    exact ⟨_, rfl, hlen, hlen, show hs.contentLength < 0 by omega⟩
  · rw [if_neg hne]
    push_neg at hne
    refine ⟨_, rfl, ?_, ?_, show hs.currentPos < 0 by omega⟩ <;>
      rw [← hne, hlen]

/-- C9 witness: on an unknown-length source at position 0, seeking to
absolute offset 0 returns -1 and leaves the position negative. -/
theorem C9_witness :
    ∃ out : HSeekOk, (HTTPSeeker.mk 0 (-1)).Seek 0 .start true = .ok out
      ∧ out.retPos = -1 ∧ out.seeker.currentPos < 0 := by
  obtain ⟨out, h1, h2, h3, h4⟩ :=
    C9_unknown_length_seek (HTTPSeeker.mk 0 (-1)) 0 .start (by decide) (by decide)
  exact ⟨out, h1, h2, h4⟩

/-- C6: on the progressive-buffering source, a seek whose computed target
lies within [0, highestBufferedOffset] succeeds and returns that target; a
seek beyond the buffered frontier while buffering is in progress fails; a
seek relative to end fails while buffering is in progress; and once
buffering is done, seek(0, fromEnd) succeeds and returns the buffered
length. -/
theorem C6_streamseeker_seek (ss : StreamSeeker) (offset : Int) (w : Whence) :
    (w ≠ .fromEnd → 0 ≤ ss.rawTarget offset w →
      ss.rawTarget offset w ≤ (ss.bufLen : Int) →
      ss.Seek offset w
        = .ok ({ ss with pos := ss.rawTarget offset w },
               ss.rawTarget offset w)) ∧
    (ss.done = false → w ≠ .fromEnd →
      (ss.bufLen : Int) < ss.rawTarget offset w →
      ss.Seek offset w = .error "seek beyond buffered data") ∧
    (ss.done = false →
      ss.Seek offset .fromEnd = .error "cannot seek to end while buffering") ∧
    (ss.done = true →
      ss.Seek 0 .fromEnd
        = .ok ({ ss with pos := (ss.bufLen : Int) }, (ss.bufLen : Int))) := by
  refine ⟨?_, ?_, ?_, ?_⟩
  · intro hw h0 hle
    cases w with
    | start =>
      simp only [StreamSeeker.Seek, StreamSeeker.seekCommon,
        StreamSeeker.rawTarget] at *
      rw [if_neg (by omega), if_neg (by omega)]
    | current =>
      simp only [StreamSeeker.Seek, StreamSeeker.seekCommon,
        StreamSeeker.rawTarget] at *
      rw [if_neg (by omega), if_neg (by omega)]
    | fromEnd => exact absurd rfl hw
  · intro hdone hw hgt
    cases w with
    | start =>
      simp only [StreamSeeker.Seek, StreamSeeker.seekCommon,
        StreamSeeker.rawTarget] at *
      rw [if_neg (by omega), if_pos (by omega), if_neg (by simp [hdone])]
    | current =>
      simp only [StreamSeeker.Seek, StreamSeeker.seekCommon,
        StreamSeeker.rawTarget] at *
      rw [if_neg (by omega), if_pos (by omega), if_neg (by simp [hdone])]
    | fromEnd => exact absurd rfl hw
  · intro hdone
    simp [StreamSeeker.Seek, hdone]
  · intro hdone
    simp only [StreamSeeker.Seek, StreamSeeker.seekCommon, hdone, add_zero]
    rw [if_neg (by simp), if_neg (by omega), if_neg (by omega)]

/-- C6 witness: with 1000 bytes buffered and buffering still in progress,
a seek to 500 succeeds at 500, a seek to 2000 fails, and an end-relative
seek fails; once done, seek(0, fromEnd) yields 1000. -/
theorem C6_witness :
    (StreamSeeker.mk 0 1000 false).Seek 500 .start
        = .ok (StreamSeeker.mk 500 1000 false, 500) ∧
    (StreamSeeker.mk 0 1000 false).Seek 2000 .start
        = .error "seek beyond buffered data" ∧
    (StreamSeeker.mk 0 1000 false).Seek 0 .fromEnd
        = .error "cannot seek to end while buffering" ∧
    (StreamSeeker.mk 0 1000 true).Seek 0 .fromEnd
        = .ok (StreamSeeker.mk 1000 1000 true, 1000) := by
  obtain ⟨h1, h2, h3, -⟩ :=
    C6_streamseeker_seek (StreamSeeker.mk 0 1000 false) 500 .start
  obtain ⟨-, h2', -, -⟩ :=
    C6_streamseeker_seek (StreamSeeker.mk 0 1000 false) 2000 .start
  obtain ⟨-, -, h3', -⟩ :=
    C6_streamseeker_seek (StreamSeeker.mk 0 1000 false) 0 .start
  obtain ⟨-, -, -, h4⟩ :=
    C6_streamseeker_seek (StreamSeeker.mk 0 1000 true) 0 .start
  exact ⟨h1 (by decide) (by decide) (by decide),
         h2' rfl (by decide) (by decide),
         h3' rfl, h4 rfl⟩

/-- C10: calling Read on a decoder any of whose internal contexts has been
released returns zero bytes and an error, and in particular this holds for
the state `cleanup` leaves behind, making the decode path unreachable. -/
theorem C10_read_after_cleanup (d : FFmpegDecoder) (plen : ℕ)
    (h : d.hasFormatContext = false ∨ d.hasCodecContext = false
        ∨ d.hasPacket = false ∨ d.hasFrame = false) :
    d.Read plen = (d, 0, some .notInitializedErr) ∧
    d.cleanup.Read plen = (d.cleanup, 0, some .notInitializedErr) := by
  constructor
  · simp [FFmpegDecoder.Read, h]
  · simp [FFmpegDecoder.Read, FFmpegDecoder.cleanup]

/-- C10 witness: a cleaned-up variant of a live decoder state returns zero
bytes and the not-initialized error from Read. -/
theorem C10_witness :
    ({ flushDecoder with hasPacket := false } : FFmpegDecoder).Read 4096
      = ({ flushDecoder with hasPacket := false }, 0,
         some .notInitializedErr) := by
  obtain ⟨h, -⟩ :=
    C10_read_after_cleanup { flushDecoder with hasPacket := false } 4096
      (by simp [flushDecoder])
  exact h

/-- Index formula for a flattened list of rows of uniform length `k`:
entry `s * k + c` of the flattened list is entry `c` of row `s`. -/
theorem flatten_uniform_getElem (rows : List (List ℤ)) (k : ℕ)
    (hk : ∀ r ∈ rows, r.length = k) (s c : ℕ)
    (hs : s < rows.length) (hc : c < k) :
    rows.flatten[s * k + c]? = rows[s]?.bind fun r => r[c]? := by
  induction rows generalizing s with
  | nil => simp at hs
  | cons r rest ih =>
    have hr : r.length = k := hk r (by simp)
    cases s with
    | zero =>
      simp only [List.flatten_cons, Nat.zero_mul, Nat.zero_add]
      rw [List.getElem?_append, if_pos (by omega)]
      simp
    | succ s =>
      have hidx : (s + 1) * k + c = r.length + (s * k + c) := by
        rw [hr]; ring
      rw [List.flatten_cons, hidx, List.getElem?_append_right (by omega)]
      simp only [Nat.add_sub_cancel_left]
      rw [ih (fun q hq => hk q (by simp [hq])) s (by simpa using hs)]
      simp

/-- C2: the planar float conversion reads the input float at planar index
`c * frameSampleCount + s` (byte offset `c * frameSampleCount * 4 + s * 4`)
and writes its converted value at interleaved output index
`s * channelCount + c` (byte offset `(s * channelCount + c) * 2`), for all
valid `s` and `c`, producing `frameSampleCount * channelCount` output
samples. -/
theorem C2_planar_interleave (channelCount frameSampleCount : ℕ)
    (inp : ℕ → ℚ) (s c : ℕ)
    (hs : s < frameSampleCount) (hc : c < channelCount) :
    (convertFltp channelCount frameSampleCount inp).length
        = frameSampleCount * channelCount ∧
    (convertFltp channelCount frameSampleCount inp)[s * channelCount + c]?
        = some (convertSample (inp (c * frameSampleCount + s))) := by
  constructor
  · simp only [convertFltp, List.length_flatten, List.map_map]
    have hconst : (List.length ∘ planarRow channelCount frameSampleCount inp)
        = fun _ => channelCount := by
      funext x; simp [planarRow]
    rw [hconst]
    simp [List.map_const', List.sum_replicate, Nat.mul_comm]
  · rw [convertFltp,
      flatten_uniform_getElem _ channelCount
        (by intro r hr
            rw [List.mem_map] at hr
            obtain ⟨x, -, rfl⟩ := hr
            simp [planarRow]) s c
        (by simpa using hs) hc]
    simp [planarRow, List.getElem?_range, hs, hc]

/-- C2 witness: a concrete 2-channel, 3-sample planar frame; the output at
interleaved index `1 * 2 + 1` is the conversion of planar input index
`1 * 3 + 1`. -/
theorem C2_witness :
    (convertFltp 2 3 (fun i => (i : ℚ) / 8)).length = 6 ∧
    (convertFltp 2 3 (fun i => (i : ℚ) / 8))[1 * 2 + 1]?
      = some (convertSample ((4 : ℚ) / 8)) := by
  obtain ⟨h1, h2⟩ :=
    C2_planar_interleave 2 3 (fun i => (i : ℚ) / 8) 1 1
      (by decide) (by decide)
  refine ⟨h1, ?_⟩
  rw [h2]
  norm_num

/-- C3 counterexample: at input 0.5 (exactly representable as float32,
with an exactly representable float32 product 16383.5), the code truncates
to 16383 while the round formula of the claim yields 16384. -/
theorem C3_counterexample :
    convertSample (1 / 2) = 16383 ∧ specConvertRound (1 / 2) = 16384 ∧
    convertSample (1 / 2) ≠ specConvertRound (1 / 2) := by
  have h1 : convertSample (1 / 2) = 16383 := by
    rw [convertSample]
    norm_num [ratTrunc]
  have h2 : specConvertRound (1 / 2) = 16384 := by
    rw [specConvertRound, clampSpec]
    norm_num [round_eq]
  exact ⟨h1, h2, by rw [h1, h2]; decide⟩

/-- Truncation toward zero lies between zero and the value, within one of
it: the characterizing inequalities used for the amended C3. -/
theorem ratTrunc_le_of_le (q : ℚ) (b : ℤ) (hb : 0 ≤ b)
    (h : -(b : ℚ) ≤ q ∧ q ≤ (b : ℚ)) : -b ≤ ratTrunc q ∧ ratTrunc q ≤ b := by
  obtain ⟨hl, hr⟩ := h
  rw [ratTrunc]
  by_cases hq : 0 ≤ q
  · rw [if_pos hq]
    constructor
    · have h0 : (0 : ℤ) ≤ ⌊q⌋ := Int.floor_nonneg.mpr hq
      omega
    · have hfl := Int.floor_le_floor hr
      rwa [Int.floor_intCast] at hfl
  · rw [if_neg hq]
    push_neg at hq
    constructor
    · have h1 : ((-b : ℤ) : ℚ) ≤ q := by push_cast; exact hl
      have hcl := Int.ceil_le_ceil h1
      rwa [Int.ceil_intCast] at hcl
    · have h2 : ⌈q⌉ ≤ ⌈(0 : ℚ)⌉ := Int.ceil_le_ceil hq.le
      simp at h2
      omega

/-- C3 amended: the conversion equals clamp-then-scale-then-truncate
(truncation toward zero, matching the body text of the specification
rather than the round formula), its output never leaves [-32767, 32767],
and the out-of-range inputs 1.5 and -2.0 map to 32767 and -32767. -/
theorem C3_amended_truncation (v : ℚ) :
    convertSample v = specConvertTrunc v ∧
    -32767 ≤ convertSample v ∧ convertSample v ≤ 32767 ∧
    convertSample (3 / 2) = 32767 ∧ convertSample (-2) = -32767 := by
  have hclamp : (if v > 1 then (1 : ℚ) else if v < -1 then -1 else v)
      = clampSpec v := by
    rw [clampSpec]
    by_cases h1 : v > 1
    · rw [if_pos h1, min_eq_left (by rw [le_max_iff]; right; linarith)]
    · rw [if_neg h1]
      by_cases h2 : v < -1
      · rw [if_pos h2, max_eq_left (by linarith), min_eq_right (by norm_num)]
      · rw [if_neg h2, max_eq_right (by linarith),
          min_eq_right (by linarith)]
  have heq : convertSample v = specConvertTrunc v := by
    rw [convertSample, specConvertTrunc, hclamp]
  have hbnd : -32767 ≤ convertSample v ∧ convertSample v ≤ 32767 := by
    rw [heq, specConvertTrunc]
    refine ratTrunc_le_of_le _ 32767 (by norm_num) ⟨?_, ?_⟩
    · have : -1 ≤ clampSpec v := by
        rw [clampSpec, le_min_iff]
        constructor
        · norm_num
        · exact le_max_left _ _
      push_cast
      nlinarith
    · have : clampSpec v ≤ 1 := min_le_left _ _
      push_cast
      nlinarith
  refine ⟨heq, hbnd.1, hbnd.2, ?_, ?_⟩
  · rw [convertSample]
    norm_num [ratTrunc]
  · rw [convertSample]
    norm_num [ratTrunc]
    rw [show ((-32767 : ℚ)) = ((-32767 : ℤ) : ℚ) by norm_num]
    rw [Int.ceil_intCast]

/-- C1: evaluation of Read at a decoder state that has reached demuxer
end-of-file with one frame still buffered inside the codec.  The code path
sends the flush packet (making the frame available) but reports io.EOF
with zero bytes on this call and on every subsequent call, never receiving
or delivering the flushed frame — contradicting the drain-before-EOF
contract the specification states. -/
theorem C1_flush_frames_lost :
    FFmpegDecoder.Read flushDecoder 4096
      = ({ flushDecoder with eof := true, codec := ⟨[4096], [], true⟩ },
         0, some .eofErr) ∧
    (FFmpegDecoder.Read flushDecoder 4096).1.codec.avail = [4096] ∧
    FFmpegDecoder.Read (FFmpegDecoder.Read flushDecoder 4096).1 4096
      = ((FFmpegDecoder.Read flushDecoder 4096).1, 0, some .eofErr) := by
  have h1 : FFmpegDecoder.Read flushDecoder 4096
      = ({ flushDecoder with eof := true, codec := ⟨[4096], [], true⟩ },
         0, some .eofErr) := by
    rw [FFmpegDecoder.Read]
    rw [if_neg (by simp [flushDecoder])]
    rw [FFmpegDecoder.readLoop]
    simp [flushDecoder, readUntilFrame]
  refine ⟨h1, by rw [h1], ?_⟩
  rw [h1]
  rw [FFmpegDecoder.Read]
  rw [if_neg (by simp [flushDecoder])]
  rw [FFmpegDecoder.readLoop]
  simp [flushDecoder]

/-- C7: Pause is a no-op (no error, no mutation of paused duration, pause
anchor, or state) when not Playing; Continue is a no-op when not Paused;
and composing either operation with itself has the effect of a single
application. -/
theorem C7_pause_resume_noop (p : Player) (now now2 : Int)
    (hinit : p.initialized = true) :
    (p.state ≠ .playing → p.Pause now = .ok (p, [])) ∧
    (p.state ≠ .paused → p.Continue now = .ok (p, [])) ∧
    (∀ q evs, p.Pause now = .ok (q, evs) → q.Pause now2 = .ok (q, [])) ∧
    (∀ q evs, p.Continue now = .ok (q, evs) →
      q.Continue now2 = .ok (q, [])) := by
  obtain ⟨ini, st, pre, stopR, pauseR, seekR, tgt, cu, nu, cm, nm, cpp, lp,
    octx, opl, oip, dec, dps, tst, stt, pa, pd⟩ := p
  have hini : ini = true := hinit
  subst hini
  refine ⟨?_, ?_, ?_, ?_⟩
  · intro hne
    simp only [Player.Pause]
    rw [if_neg (by simp), if_pos hne]
  · intro hne
    simp only [Player.Continue]
    rw [if_neg (by simp), if_pos hne]
  · intro q evs h
    cases st <;> cases opl <;>
      (simp [Player.Pause, Player.setState] at h
       obtain ⟨hq, -⟩ := h
       subst hq
       simp [Player.Pause, Player.setState])
  · intro q evs h
    cases st <;> cases opl <;> cases pre <;> by_cases hpa : pa > 0 <;>
      (simp [Player.Continue, Player.setState, hpa] at h
       obtain ⟨hq, -⟩ := h
       subst hq
       simp [Player.Continue, Player.setState, hpa])

/-- C7 witness: on a concrete paused player, Pause is an identity with no
events; on a concrete playing player, Continue is an identity with no
events. -/
theorem C7_witness :
    ({ samplePlayer with state := .paused } : Player).Pause 5
        = .ok ({ samplePlayer with state := .paused }, []) ∧
    samplePlayer.Continue 5 = .ok (samplePlayer, []) := by
  obtain ⟨h1, -, -, -⟩ :=
    C7_pause_resume_noop { samplePlayer with state := .paused } 5 7
      (by decide)
  obtain ⟨-, h2, -, -⟩ := C7_pause_resume_noop samplePlayer 5 7 (by decide)
  exact ⟨h1 (by decide), h2 (by decide)⟩

/-- C8: whenever any stage of the startPlayback open sequence fails, every
resource acquired by the sequence has been released, the error is
returned, the player state field is unchanged, and no audio output is
active. -/
theorem C8_start_failure_cleanup (p : Player) (url : String) (t : ℚ)
    (oc : OpenOracle) (now : Int)
    (herr : (p.startPlayback url t oc now).err ≠ none) :
    (∀ r ∈ (p.startPlayback url t oc now).acquired,
        r ∈ (p.startPlayback url t oc now).released) ∧
    (p.startPlayback url t oc now).player.state = p.state ∧
    (p.startPlayback url t oc now).player.otoPlayerExists = false ∧
    (p.startPlayback url t oc now).player.otoIsPlaying = false := by
  obtain ⟨sOk, dOk, cOk⟩ := oc
  by_cases hctx : p.otoContextExists = true <;>
    cases sOk <;> cases dOk <;> cases cOk <;>
      simp_all [Player.startPlayback, Player.stopPlayback, Player.seekTo]

/-- C8 witness: with the byte source opening but the decoder failing, the
byte source is closed, the state is unchanged and no sink is active. -/
theorem C8_witness :
    (∀ r ∈ (samplePlayer.startPlayback "trackB" 0
        (OpenOracle.mk true false true) 3).acquired,
      r ∈ (samplePlayer.startPlayback "trackB" 0
        (OpenOracle.mk true false true) 3).released) ∧
    (samplePlayer.startPlayback "trackB" 0
        (OpenOracle.mk true false true) 3).player.state
      = samplePlayer.state ∧
    (samplePlayer.startPlayback "trackB" 0
        (OpenOracle.mk true false true) 3).player.otoPlayerExists
      = false := by
  obtain ⟨h1, h2, h3, -⟩ :=
    C8_start_failure_cleanup samplePlayer "trackB" 0
      (OpenOracle.mk true false true) 3 (by decide)
  exact ⟨h1, h2, h3⟩

/-- C4: on a monitor tick that observes the sink no longer playing while
the player is Playing with no pause pending: with a queued next track and
a successful open sequence, the next track is promoted to current, its
playback starts at offset 0, and exactly one track-change notification
fires; with a queued next track and a failed open sequence, the player
fully stops and the monitor exits with no track-change; with no queued
next track, the player stops and the monitor exits. -/
theorem C4_monitor_advance (p : Player) (oc : OpenOracle) (now : Int)
    (hinit : p.initialized = true)
    (hstop : p.stopRequested = false)
    (hpause : p.pauseRequested = false)
    (hseek : p.seekRequested = false)
    (hstate : p.state = .playing)
    (hnp : (p.otoPlayerExists && p.otoIsPlaying) = false) :
    (p.nextURL ≠ "" → p.openSucceeds oc →
      ((p.monitorTick oc now).player.currentURL = p.nextURL ∧
       (p.monitorTick oc now).player.currentMeta = p.nextMeta ∧
       (p.monitorTick oc now).player.nextURL = "" ∧
       (p.monitorTick oc now).player.decoderPosSec = 0 ∧
       (p.monitorTick oc now).player.otoIsPlaying = true ∧
       (p.monitorTick oc now).player.state = .playing ∧
       (p.monitorTick oc now).exited = false ∧
       (p.monitorTick oc now).events.count PEvent.onTrackChange = 1 ∧
       PEvent.startAttempt p.nextURL 0 ∈ (p.monitorTick oc now).events)) ∧
    (p.nextURL ≠ "" → ¬p.openSucceeds oc →
      ((p.monitorTick oc now).exited = true ∧
       (p.monitorTick oc now).player.state = .stopped ∧
       (p.monitorTick oc now).player.otoIsPlaying = false ∧
       (p.monitorTick oc now).events.count PEvent.onTrackChange = 0)) ∧
    (p.nextURL = "" →
      ((p.monitorTick oc now).exited = true ∧
       (p.monitorTick oc now).player.state = .stopped ∧
       (p.monitorTick oc now).events.count PEvent.onTrackChange = 0)) := by
  obtain ⟨sOk, dOk, cOk⟩ := oc
  refine ⟨?_, ?_, ?_⟩
  · intro hnu hop
    by_cases hctx : p.otoContextExists = true <;>
      cases sOk <;> cases dOk <;> cases cOk <;>
        simp_all [Player.monitorTick, Player.startPlayback,
          Player.stopPlayback, Player.seekTo, Player.openSucceeds,
          Player.Stop, Player.setState, lt_self_iff_false]
  · intro hnu hop
    by_cases hctx : p.otoContextExists = true <;>
      cases sOk <;> cases dOk <;> cases cOk <;>
        simp_all [Player.monitorTick, Player.startPlayback,
          Player.stopPlayback, Player.seekTo, Player.openSucceeds,
          Player.Stop, Player.setState, lt_self_iff_false]
  · intro hnu
    simp_all [Player.monitorTick, Player.Stop, Player.stopPlayback,
      Player.setState]

/-- C4 witness: a concrete exhausted-sink playing player with next track
"trackB" and an all-success oracle advances to "trackB" at offset 0 with
exactly one track-change notification. -/
theorem C4_witness :
    (samplePlayer.monitorTick (OpenOracle.mk true true true) 9).player.currentURL
        = "trackB" ∧
    (samplePlayer.monitorTick (OpenOracle.mk true true true) 9).player.decoderPosSec
        = 0 ∧
    (samplePlayer.monitorTick (OpenOracle.mk true true true) 9).events.count
        PEvent.onTrackChange = 1 := by
  obtain ⟨h1, -, -⟩ :=
    C4_monitor_advance samplePlayer (OpenOracle.mk true true true) 9
      (by decide) (by decide) (by decide) (by decide) (by decide) (by decide)
  obtain ⟨hA, -, -, hD, -, -, -, hCnt, -⟩ :=
    h1 (by decide) (by simp [Player.openSucceeds, samplePlayer])
  exact ⟨hA, hD, hCnt⟩

end Supersonic
